import Mathlib

set_option maxHeartbeats 2000000

/-!
Shallow embedding of the Hex game core (src/coord.rs and src/board.rs):
the coordinate system with its text encoding, and the board with its two
union-find forests, occupancy sets and cached game status.  Machine
integers (u8, u16) are modelled as Nat, with the wraparound written out
as an explicit mod wherever the source arithmetic can overflow.
-/

/-- Alphabet constant ALPHABET from coord.rs, copied character for
character from the source string "abcdefghjiklmnopqrstuvwxyz".  Note that
the source transposes the letters i and j relative to the standard
alphabet: position 8 holds the letter j and position 9 holds the letter i. -/
def ALPHABET : List Char :=
  ['a', 'b', 'c', 'd', 'e', 'f', 'g', 'h', 'j', 'i', 'k', 'l', 'm',
   'n', 'o', 'p', 'q', 'r', 's', 't', 'u', 'v', 'w', 'x', 'y', 'z']

/-- Struct Coord from coord.rs: two public u8 fields.  The u8 values are
modelled as Nat; the range 0..=255 is implicit and wraparound is written
explicitly at the operations where the source can overflow. -/
structure Coord where
  x : Nat
  y : Nat
  deriving DecidableEq

/-- Componentwise unchecked addition from the Add impl in coord.rs; u8
addition wraps modulo 256 on overflow (release semantics). -/
def Coord.add (a b : Coord) : Coord :=
  { x := (a.x + b.x) % 256, y := (a.y + b.y) % 256 }

/-- Display (to_text) from coord.rs writes the character of ALPHABET at
index x, followed by the decimal digits of y + 1 (a u8 addition, hence
the mod 256).  The source unwraps the character lookup, which panics when
x is 26 or more; the panic is modelled as none. -/
def Coord.to_text (c : Coord) : Option (List Char) :=
  match ALPHABET.get? c.x with
  | none => none
  | some ch => some (ch :: Nat.toDigits 10 ((c.y + 1) % 256))

/-- Error enum ParseCoordError from coord.rs.  InvalidInt abstracts the
wrapped std ParseIntError payload, which the program never inspects. -/
inductive ParseCoordError where
  | InvalidFormat
  | InvalidInt
  deriving DecidableEq

/-- Constructor Coord::new from coord.rs: rejects components above 25. -/
def Coord.new (x y : Nat) : Option Coord :=
  if x > 25 ∨ y > 25 then none else some { x := x, y := y }

/-- Digit-by-digit model of the u8 parse used by Coord::from_str: an
optional leading plus sign, then at least one ASCII digit, accumulating
left to right with an overflow check against 255.  Any failure (empty
digit string, non-digit character, overflow) is a ParseIntError, which
from_str converts to InvalidInt. -/
def parseU8 (s : List Char) : Option Nat :=
  let digits := match s with
    | '+' :: rest => rest
    | _ => s
  match digits with
  | [] => none
  | _ =>
    digits.foldl (fun acc c =>
      match acc with
      | none => none
      | some a =>
        if '0' ≤ c ∧ c ≤ '9' then
          let v := a * 10 + (c.toNat - '0'.toNat)
          if v ≤ 255 then some v else none
        else none) (some 0)

/-- Parser Coord::from_str from coord.rs, over the character list of the
input string.  The source first lowercases the whole string with the
full-Unicode str::to_lowercase and tests its byte length; this embedding
models the parser on ASCII inputs, where that lowercasing is exactly the
character-wise Char.toLower and the byte length is exactly the character
count.  Outside ASCII the source and this model can differ (for example
the source lowercases the Kelvin sign to the letter k), so every theorem
that classifies the parser's results over arbitrary inputs quantifies
only over ASCII strings.  After lowercasing, the parser rejects strings
shorter than two characters or whose first character is not in ALPHABET,
parses the rest as a u8, decrements it with u8 wraparound (release
semantics: the suffix 0 wraps to 255), and funnels a failing Coord::new
range check into InvalidFormat. -/
def Coord.from_str (s : List Char) : Except ParseCoordError Coord :=
  let sl := s.map Char.toLower
  if sl.length < 2 then
    Except.error ParseCoordError.InvalidFormat
  else if !(ALPHABET.contains (sl.headD ' ')) then
    Except.error ParseCoordError.InvalidFormat
  else
    match parseU8 (sl.drop 1) with
    | none => Except.error ParseCoordError.InvalidInt
    | some y =>
      match Coord.new (ALPHABET.indexOf (sl.headD ' ')) ((y + 255) % 256) with
      | some c => Except.ok c
      | none => Except.error ParseCoordError.InvalidFormat

/-- Neighbor enumeration Coord::neighbors from coord.rs, clockwise from
the top left, with the origin and the first row/column special-cased
exactly as in the source.  The u8 increments carry their wraparound; the
decrements cannot underflow in the branches where they occur. -/
def Coord.neighbors (c : Coord) : List Coord :=
  if c = { x := 0, y := 0 } then
    [{ x := 1, y := 0 }, { x := 0, y := 1 }]
  else if c.x = 0 then
    [{ x := 0, y := c.y - 1 }, { x := 1, y := c.y - 1 },
     { x := 1, y := c.y }, { x := 0, y := (c.y + 1) % 256 }]
  else if c.y = 0 then
    [{ x := (c.x + 1) % 256, y := 0 }, { x := c.x, y := 1 },
     { x := c.x - 1, y := 1 }, { x := c.x - 1, y := 0 }]
  else
    [{ x := c.x, y := c.y - 1 }, { x := (c.x + 1) % 256, y := c.y - 1 },
     { x := (c.x + 1) % 256, y := c.y }, { x := c.x, y := (c.y + 1) % 256 },
     { x := c.x - 1, y := (c.y + 1) % 256 }, { x := c.x - 1, y := c.y }]

/-- Helper Coord::abs_sub from coord.rs: absolute difference of two u8
values without overflow. -/
def Coord.abs_sub (int1 int2 : Nat) : Nat :=
  if int1 ≥ int2 then int1 - int2 else int2 - int1

/-- Predicate Coord::is_neighbor from coord.rs; the sums x + y are u8
additions in the source, hence the mod 256. -/
def Coord.is_neighbor (a b : Coord) : Bool :=
  decide (Coord.abs_sub a.x b.x ≤ 1) &&
  decide (Coord.abs_sub a.y b.y ≤ 1) &&
  decide (Coord.abs_sub ((a.x + a.y) % 256) ((b.x + b.y) % 256) ≤ 1)

/-- Metric Coord::distance from coord.rs; all arithmetic is u8 in the
source, so the intermediate sums are reduced mod 256 before halving. -/
def Coord.distance (a b : Coord) : Nat :=
  ((Coord.abs_sub a.x b.x + Coord.abs_sub a.y b.y) % 256 +
    Coord.abs_sub ((a.x + a.y) % 256) ((b.x + b.y) % 256)) % 256 / 2

/-- Color enum from board.rs. -/
inductive Color where
  | Black
  | White
  deriving DecidableEq

/-- Cell descriptor HexCell from board.rs. -/
inductive HexCell where
  | Black
  | White
  | Empty
  deriving DecidableEq

/-- Status enum GameStatus from board.rs. -/
inductive GameStatus where
  | BlackWin
  | WhiteWin
  | Ongoing
  deriving DecidableEq

/-- Partition model of petgraph's UnionFind over the keys 0..n: entry i
holds the current representative of key i.  UnionFind::new starts every
key in its own class. -/
def UF.new (n : Nat) : List Nat := List.range n

/-- Find operation: look up the stored representative.  Out-of-range keys
are returned unchanged; the board only ever queries in-range keys. -/
def UF.find (uf : List Nat) (x : Nat) : Nat := uf.getD x x

/-- Union operation: merge the class of b into the class of a by
rewriting every stored representative.  This quick-find presentation
induces exactly the same find-equality relation as petgraph's rank-based
forest, which is the only thing the board observes of the structure.
petgraph panics on out-of-range keys; the board only ever passes in-range
keys (see the index bounds in Board.place_piece and Board.new), and out
of range we leave the structure unchanged. -/
def UF.union (uf : List Nat) (a b : Nat) : List Nat :=
  if a < uf.length ∧ b < uf.length then
    if UF.find uf a = UF.find uf b then uf
    else uf.map (fun r => if r = UF.find uf b then UF.find uf a else r)
  else uf

/-- Struct Board from board.rs.  The two HashSet fields are modelled as
duplicate-free lists observed only through membership; size is the u16
edge length. -/
structure Board where
  size : Nat
  black_unions : List Nat
  white_unions : List Nat
  black : List Coord
  white : List Coord
  status : GameStatus

/-- Constructor Board::new from board.rs: both forests over the padded
(size + 2) squared index space, with the pre-unions written exactly as
the two source loops perform them (the loop variables y and x run from 1
to size inclusive).  Note that the second white union uses the source's
literal (size - 1) * size + x expression. -/
def Board.new (size : Nat) : Board :=
  let n := (size + 2) * (size + 2)
  let black_unions := (List.range' 1 size).foldl
    (fun uf y => UF.union (UF.union uf (y * (size + 2)) ((y - 1) * (size + 2)))
      ((y + 1) * (size + 2) - 1) (y * (size + 2) - 1))
    (UF.new n)
  let white_unions := (List.range' 1 size).foldl
    (fun uf x => UF.union (UF.union uf x (x - 1))
      ((size - 1) * size + x) ((size - 1) * size + x - 1))
    (UF.new n)
  { size := size, black_unions := black_unions, white_unions := white_unions,
    black := [], white := [], status := GameStatus.Ongoing }

/-- Index mapping Board::coord_to_num from board.rs.  The u16 arithmetic
cannot overflow for the supported sizes, so plain Nat arithmetic is
exact. -/
def Board.coord_to_num (b : Board) (c : Coord) : Nat :=
  (c.y + 1) * (b.size + 2) + c.x + 1

/-- Inverse mapping Board::num_to_coord from board.rs; the two u8 casts
and u8 decrements are written out with their wraparound. -/
def Board.num_to_coord (b : Board) (num : Nat) : Coord :=
  { y := ((num / (b.size + 2)) % 256 + 255) % 256,
    x := ((num % (b.size + 2)) % 256 + 255) % 256 }

/-- Occupancy query Board::piece from board.rs: black set first, then
white set, else empty. -/
def Board.piece (b : Board) (c : Coord) : HexCell :=
  if c ∈ b.black then HexCell.Black
  else if c ∈ b.white then HexCell.White
  else HexCell.Empty

/-- Padded-index occupancy Board::piece_at_num from board.rs: the left
and right padded columns read as black virtual stones, the top and bottom
padded rows as white virtual stones, and everything else defers to the
occupancy sets through num_to_coord. -/
def Board.piece_at_num (b : Board) (num : Nat) : HexCell :=
  if num % (b.size + 2) = 0 ∨ (num + 1) % (b.size + 2) = 0 then HexCell.Black
  else if num ≤ b.size + 1 ∨ num > (b.size + 1) * b.size then HexCell.White
  else b.piece (b.num_to_coord num)

/-- Neighbor indices Board::num_neighbors from board.rs.  The u16
subtractions never underflow at the call sites (num is the padded index
of a real cell, hence at least size + 3) and the additions stay within
u16 for the supported sizes, so plain Nat arithmetic is exact here. -/
def Board.num_neighbors (b : Board) (num : Nat) : List Nat :=
  let size := b.size + 2
  [num - size, num - size + 1, num + 1, num + size, num + size - 1, num - 1]

/-- Status recomputation Board::set_game_status from board.rs (its
returned status is ignored by the caller, so only the field update is
modelled).  The probes are written exactly as in the source: indices
size + 3 and (size + 2) * 2 - 1 in black's forest, indices 1 and
(size + 2) * (size + 1) + 1 in white's forest. -/
def Board.set_game_status (b : Board) : Board :=
  if UF.find b.black_unions (b.size + 3) =
      UF.find b.black_unions ((b.size + 2) * 2 - 1) then
    { b with status := GameStatus.BlackWin }
  else if UF.find b.white_unions 1 =
      UF.find b.white_unions ((b.size + 2) * (b.size + 1) + 1) then
    { b with status := GameStatus.WhiteWin }
  else
    { b with status := GameStatus.Ongoing }

/-- Move placement Board::place_piece from board.rs: bounds check against
the board extent, occupancy check, insertion into the mover's set, then
one union per neighbor of the padded index that piece_at_num reports as
the mover's color, and finally the status recomputation.  Returns the
bool result paired with the updated board (the mutation of self). -/
def Board.place_piece (b : Board) (c : Coord) (color : Color) : Bool × Board :=
  if b.size ≤ c.x ∨ b.size ≤ c.y then (false, b)
  else if b.piece c ≠ HexCell.Empty then (false, b)
  else
    let num := b.coord_to_num c
    let b1 :=
      match color with
      | Color.Black =>
        let bi : Board := { b with black := if c ∈ b.black then b.black else c :: b.black }
        let uf := (bi.num_neighbors num).foldl
          (fun uf nb =>
            if bi.piece_at_num nb = HexCell.Black then UF.union uf num nb else uf)
          bi.black_unions
        { bi with black_unions := uf }
      | Color.White =>
        let bi : Board := { b with white := if c ∈ b.white then b.white else c :: b.white }
        let uf := (bi.num_neighbors num).foldl
          (fun uf nb =>
            if bi.piece_at_num nb = HexCell.White then UF.union uf num nb else uf)
          bi.white_unions
        { bi with white_unions := uf }
    (true, b1.set_game_status)

/-- Reachable board states: those produced by Board::new followed by any
sequence of place_piece calls (successful or not). -/
inductive Reachable : Board → Prop where
  | base (size : Nat) : Reachable (Board.new size)
  | step (b : Board) (c : Coord) (color : Color) :
      Reachable b → Reachable (Board.place_piece b c color).2

/-- Move list of the claim C6 scenario on the 5 by 5 board: Black a1, a2,
b2, b3, c3, d2, e1 interleaved alternately with White a3, c5, d1, e2, e4,
Black first. -/
def c6_moves : List (Coord × Color) :=
  [(Coord.mk 0 0, Color.Black), (Coord.mk 0 2, Color.White),
   (Coord.mk 0 1, Color.Black), (Coord.mk 2 4, Color.White),
   (Coord.mk 1 1, Color.Black), (Coord.mk 3 0, Color.White),
   (Coord.mk 1 2, Color.Black), (Coord.mk 4 1, Color.White),
   (Coord.mk 2 2, Color.Black), (Coord.mk 4 3, Color.White),
   (Coord.mk 3 1, Color.Black), (Coord.mk 4 0, Color.Black)]

/-- Trace of a move sequence: the bool returned by each placement paired
with the cached status immediately after it. -/
def placeTrace (b : Board) (ms : List (Coord × Color)) : List (Bool × GameStatus) :=
  match ms with
  | [] => []
  | m :: rest =>
    let r := b.place_piece m.1 m.2
    (r.1, r.2.status) :: placeTrace r.2 rest

/-- Well-formed forest: every representative stored in the array is
itself a valid key of the array. -/
def UFwf (uf : List Nat) : Prop := ∀ r ∈ uf, r < uf.length

/-- Invariant carried by every reachable board: both forests are
well-formed, and a cached win status is backed by the corresponding
probe equality in the forest it was computed from. -/
def BoardWF (b : Board) : Prop :=
  UFwf b.black_unions ∧ UFwf b.white_unions ∧
  (b.status = GameStatus.BlackWin →
    UF.find b.black_unions (b.size + 3) =
      UF.find b.black_unions ((b.size + 2) * 2 - 1)) ∧
  (b.status = GameStatus.WhiteWin →
    UF.find b.white_unions 1 =
      UF.find b.white_unions ((b.size + 2) * (b.size + 1) + 1))


/-- Decidable equality for parse results, so that concrete parser runs
can be settled by decide. -/
instance : DecidableEq (Except ParseCoordError Coord) := fun a b =>
  match a, b with
  | Except.ok a, Except.ok b =>
    if h : a = b then isTrue (by rw [h]) else isFalse (by simp [h])
  | Except.error a, Except.error b =>
    if h : a = b then isTrue (by rw [h]) else isFalse (by simp [h])
  | Except.ok _, Except.error _ => isFalse (by simp)
  | Except.error _, Except.ok _ => isFalse (by simp)

/-- Equality of coordinates is componentwise. -/
theorem Coord.eq_iff (a b : Coord) : a = b ↔ a.x = b.x ∧ a.y = b.y := by
  cases a; cases b; simp


/-- Claim C9: on valid positions (components at most 25) the source's
distance is zero exactly on equal coordinates, and is one exactly on
distinct coordinates that is_neighbor accepts. -/
theorem c9_distance_iff (a b : Coord)
    (ha : a.x ≤ 25 ∧ a.y ≤ 25) (hb : b.x ≤ 25 ∧ b.y ≤ 25) :
    (Coord.distance a b = 0 ↔ a = b) ∧
    (Coord.distance a b = 1 ↔ (Coord.is_neighbor a b = true ∧ a ≠ b)) := by
  obtain ⟨hax, hay⟩ := ha
  obtain ⟨hbx, hby⟩ := hb
  simp only [Coord.distance, Coord.abs_sub, Coord.is_neighbor, Coord.eq_iff, ne_eq,
    Bool.and_eq_true, decide_eq_true_eq]
  split_ifs <;> omega

/-- Witness for c9_distance_iff at the concrete pair a1, b1. -/
theorem c9_witness :
    (Coord.distance (Coord.mk 0 0) (Coord.mk 1 0) = 0 ↔ Coord.mk 0 0 = Coord.mk 1 0) ∧
    (Coord.distance (Coord.mk 0 0) (Coord.mk 1 0) = 1 ↔
      (Coord.is_neighbor (Coord.mk 0 0) (Coord.mk 1 0) = true ∧ Coord.mk 0 0 ≠ Coord.mk 1 0)) :=
  c9_distance_iff (Coord.mk 0 0) (Coord.mk 1 0) (by exact ⟨by decide, by decide⟩)
    (by exact ⟨by decide, by decide⟩)

/-- Claim C4 as stated is false on the code: the program's alphabet
transposes i and j, so to_text at x = 8 starts with the letter j rather
than the letter i demanded by the claim (the 9th letter of the standard
alphabet). -/
theorem c4_counterexample :
    Coord.to_text (Coord.mk 8 0) = some ['j', '1'] ∧
    Coord.to_text (Coord.mk 8 0) ≠ some ['i', '1'] := by
  exact ⟨by decide, by decide⟩

/-- Claim C4 amended: to_text produces the character at index x of the
program's alphabet "abcdefghjiklmnopqrstuvwxyz" (the standard alphabet
with i and j transposed) followed by the decimal digits of y + 1; the
endpoints a1 and z26 hold as stated, but column 8 prints j and column 9
prints i. -/
theorem c4_to_text_amended (x y : Nat) (hx : x < 26) (hy : y < 26) :
    Coord.to_text (Coord.mk x y) = some (ALPHABET.getD x ' ' :: Nat.toDigits 10 (y + 1)) ∧
    Coord.to_text (Coord.mk 0 0) = some ['a', '1'] ∧
    Coord.to_text (Coord.mk 25 25) = some ['z', '2', '6'] ∧
    ((Coord.to_text (Coord.mk 8 y)).getD []).head? = some 'j' ∧
    ((Coord.to_text (Coord.mk 9 y)).getD []).head? = some 'i' := by
  have key : ∀ x0 : Nat, x0 < 26 → ∀ y0 : Nat, y0 < 26 →
      Coord.to_text (Coord.mk x0 y0) =
        some (ALPHABET.getD x0 ' ' :: Nat.toDigits 10 (y0 + 1)) := by decide
  have keyj : ∀ y0 : Nat, y0 < 26 →
      ((Coord.to_text (Coord.mk 8 y0)).getD []).head? = some 'j' := by decide
  have keyi : ∀ y0 : Nat, y0 < 26 →
      ((Coord.to_text (Coord.mk 9 y0)).getD []).head? = some 'i' := by decide
  exact ⟨key x hx y hy, by decide, by decide, keyj y hy, keyi y hy⟩

/-- Witness for c4_to_text_amended at the concrete position x = 8, y = 3. -/
theorem c4_witness :
    Coord.to_text (Coord.mk 8 3) = some (ALPHABET.getD 8 ' ' :: Nat.toDigits 10 4) ∧
    Coord.to_text (Coord.mk 0 0) = some ['a', '1'] ∧
    Coord.to_text (Coord.mk 25 25) = some ['z', '2', '6'] ∧
    ((Coord.to_text (Coord.mk 8 3)).getD []).head? = some 'j' ∧
    ((Coord.to_text (Coord.mk 9 3)).getD []).head? = some 'i' :=
  c4_to_text_amended 8 3 (by decide) (by decide)

/-- Claim C3 as stated is false on the code: the Display implementation
unwraps the alphabet lookup, which panics (modelled as none) on the
in-type coordinate with x = 26, reachable because Coord's fields are
public and its addition is unchecked. -/
theorem c3_counterexample : Coord.to_text (Coord.mk 26 0) = none := by
  decide

/-- Claim C3 amended: every operation is total except Display/to_text,
which has a value exactly when x is below 26 (the range guaranteed by
checked construction); from_str in particular returns a ParseError value
on every input string, including the suffix 0, which the wrapping u8
decrement turns into an InvalidFormat error rather than a panic. -/
theorem c3_totality_amended :
    (∀ c : Coord, (Coord.to_text c).isSome = true ↔ c.x < 26) ∧
    (∀ s : List Char,
      Coord.from_str s = Except.error ParseCoordError.InvalidFormat ∨
      Coord.from_str s = Except.error ParseCoordError.InvalidInt ∨
      ∃ c, Coord.from_str s = Except.ok c) ∧
    Coord.from_str ['a', '0'] = Except.error ParseCoordError.InvalidFormat := by
  refine ⟨?_, ?_, by decide⟩
  · intro c
    constructor
    · intro h
      by_contra hx
      push_neg at hx
      have hn : ALPHABET.get? c.x = none := by
        refine List.get?_eq_none.mpr ?_
        have hL : ALPHABET.length = 26 := rfl
        omega
      rw [List.get?_eq_getElem?] at hn
      simp [Coord.to_text, hn] at h
    · intro hx
      have hl : c.x < ALPHABET.length := by
        have hL : ALPHABET.length = 26 := rfl
        omega
      simp only [Coord.to_text, List.get?_eq_get hl]
      rfl
  · intro s
    cases h : Coord.from_str s with
    | error e =>
      cases e with
      | InvalidFormat => exact Or.inl rfl
      | InvalidInt => exact Or.inr (Or.inl rfl)
    | ok c => exact Or.inr (Or.inr ⟨c, rfl⟩)

/-- Witness for c3_totality_amended at the concrete position d5. -/
theorem c3_witness : (Coord.to_text (Coord.mk 3 4)).isSome = true :=
  (c3_totality_amended.1 (Coord.mk 3 4)).mpr (by decide)

/-- Claim C5 as stated is false on the code: the input a27 is at least two
characters long and starts with a valid column letter, and its suffix
parses as the integer 27, so the claim requires InvalidNumber; but the
code funnels the failing range check of Coord::new into InvalidFormat. -/
theorem c5_counterexample :
    Coord.from_str ['a', '2', '7'] = Except.error ParseCoordError.InvalidFormat ∧
    Coord.from_str ['a', '2', '7'] ≠ Except.error ParseCoordError.InvalidInt ∧
    ¬ (['a', '2', '7'].length < 2) ∧
    ALPHABET.contains 'a' = true ∧
    parseU8 ['2', '7'] = some 27 := by
  exact ⟨by decide, by decide, by decide, by decide, by decide⟩

/-- Claim C5 amended, stated over ASCII input strings, the domain on
which the embedding of the parser is exact (Rust's Unicode lowercasing
and byte-length test coincide there with the modelled character-wise
ones): from_str fails with InvalidFormat exactly when the lowercased
input is shorter than two characters, or its first character is not a
column letter, or the numeric suffix parses as a u8 whose wrapping
decrement exceeds 25 (that is, the row is 0 or larger than 26); it fails
with InvalidInt exactly when the suffix does not parse as a u8 at all;
and on every remaining ASCII input it succeeds, with
from_str (to_text p) = p for every valid position p. -/
theorem c5_from_str_amended :
    (∀ s : List Char, (∀ c ∈ s, c.toNat < 128) →
      (Coord.from_str s = Except.error ParseCoordError.InvalidFormat ↔
        ((s.map Char.toLower).length < 2 ∨
         ALPHABET.contains ((s.map Char.toLower).headD ' ') = false ∨
         ∃ v, parseU8 ((s.map Char.toLower).drop 1) = some v ∧ 25 < (v + 255) % 256)) ∧
      (Coord.from_str s = Except.error ParseCoordError.InvalidInt ↔
        (2 ≤ (s.map Char.toLower).length ∧
         ALPHABET.contains ((s.map Char.toLower).headD ' ') = true ∧
         parseU8 ((s.map Char.toLower).drop 1) = none))) ∧
    (∀ x : Nat, x < 26 → ∀ y : Nat, y < 26 →
      Coord.from_str ((Coord.to_text (Coord.mk x y)).getD []) = Except.ok (Coord.mk x y)) := by
  refine ⟨?_, by decide⟩
  intro s _
  unfold Coord.from_str
  by_cases h1 : (s.map Char.toLower).length < 2
  · rw [if_pos h1]
    constructor
    · exact iff_of_true rfl (Or.inl h1)
    · refine iff_of_false (by decide) ?_
      rintro ⟨hlen, -, -⟩
      omega
  · rw [if_neg h1]
    by_cases h2 : ALPHABET.contains ((s.map Char.toLower).headD ' ') = true
    · rw [if_neg (by rw [h2]; decide)]
      split
      next hp =>
        constructor
        · refine iff_of_false (fun h => absurd (Except.error.inj h) (by decide)) ?_
          rintro (h | h | ⟨v, hv, -⟩)
          · exact h1 h
          · rw [h2] at h; cases h
          · rw [hp] at hv; cases hv
        · exact iff_of_true rfl ⟨by omega, h2, hp⟩
      next v hp =>
        have hidx : ALPHABET.indexOf ((s.map Char.toLower).headD ' ') < 26 :=
          List.indexOf_lt_length.mpr (by simpa using h2)
        unfold Coord.new
        by_cases hw : 25 < (v + 255) % 256
        · rw [if_pos (Or.inr hw)]
          constructor
          · exact iff_of_true rfl (Or.inr (Or.inr ⟨v, hp, hw⟩))
          · refine iff_of_false (fun h => absurd (Except.error.inj h) (by decide)) ?_
            rintro ⟨-, -, hn⟩
            rw [hp] at hn; cases hn
        · rw [if_neg (by push_neg; exact ⟨by omega, by omega⟩)]
          constructor
          · refine iff_of_false (fun h => Except.noConfusion h) ?_
            rintro (h | h | ⟨v2, hv2, hw2⟩)
            · exact h1 h
            · rw [h2] at h; cases h
            · rw [hp] at hv2; cases hv2; exact hw hw2
          · refine iff_of_false (fun h => Except.noConfusion h) ?_
            rintro ⟨-, -, hn⟩
            rw [hp] at hn; cases hn
    · have h2f : ALPHABET.contains ((s.map Char.toLower).headD ' ') = false :=
        Bool.eq_false_iff.mpr h2
      rw [if_pos (by rw [h2f]; decide)]
      constructor
      · exact iff_of_true rfl (Or.inr (Or.inl h2f))
      · refine iff_of_false (by decide) ?_
        rintro ⟨-, ht, -⟩
        exact h2 ht

/-- Witness for c5_from_str_amended: the classification applied to the
concrete ASCII input a0 (row 0 wraps and is rejected as InvalidFormat),
and the round trip at the concrete position d5. -/
theorem c5_witness :
    Coord.from_str ['a', '0'] = Except.error ParseCoordError.InvalidFormat ∧
    Coord.from_str ((Coord.to_text (Coord.mk 3 4)).getD []) = Except.ok (Coord.mk 3 4) :=
  ⟨(c5_from_str_amended.1 ['a', '0'] (by decide)).1.mpr
      (Or.inr (Or.inr ⟨0, by decide, by decide⟩)),
   c5_from_str_amended.2 3 (by decide) 4 (by decide)⟩

/-- Claim C6: in the scenario every placement returns true, the status is
Ongoing after each of the first eleven moves, and the status is BlackWin
immediately after the final Black move e1. -/
theorem c6_scenario :
    placeTrace (Board.new 5) c6_moves =
      List.replicate 11 (true, GameStatus.Ongoing) ++ [(true, GameStatus.BlackWin)] := by
  decide

/-- Claim C1 is contradicted by the code: on the 3 by 3 board, after
Black successfully places at a2, b2 and c2, the left border
representative and the right border representative of the black forest
are equal (the black occupancy set holds the chain (0,1), (1,1), (2,1)
across the whole board), yet the cached status stays Ongoing.  The win
check probes index size + 3, the padded node of cell (0,0), instead of
the left border node size + 2 that its own comment describes. -/
theorem c1_win_check_bug :
    (((Board.new 3).place_piece (Coord.mk 0 1) Color.Black).1 = true) ∧
    ((((Board.new 3).place_piece (Coord.mk 0 1) Color.Black).2.place_piece
        (Coord.mk 1 1) Color.Black).1 = true) ∧
    (((((Board.new 3).place_piece (Coord.mk 0 1) Color.Black).2.place_piece
        (Coord.mk 1 1) Color.Black).2.place_piece (Coord.mk 2 1) Color.Black).1 = true) ∧
    UF.find (((((Board.new 3).place_piece (Coord.mk 0 1) Color.Black).2.place_piece
        (Coord.mk 1 1) Color.Black).2.place_piece (Coord.mk 2 1) Color.Black).2.black_unions)
        (3 + 2) =
      UF.find (((((Board.new 3).place_piece (Coord.mk 0 1) Color.Black).2.place_piece
        (Coord.mk 1 1) Color.Black).2.place_piece (Coord.mk 2 1) Color.Black).2.black_unions)
        ((3 + 2) * 2 - 1) ∧
    ((((Board.new 3).place_piece (Coord.mk 0 1) Color.Black).2.place_piece
        (Coord.mk 1 1) Color.Black).2.place_piece (Coord.mk 2 1) Color.Black).2.status =
      GameStatus.Ongoing := by
  decide

/-- Claim C2 is contradicted by the code: immediately after Board::new(5)
the white forest holds the padded nodes 22 and 23 of the real cells
(0,2) and (1,2) in one set, because the bottom border loop uses the
unpadded expression (size - 1) * size + x; the two genuine bottom border
nodes 43 and 44 do not share a set; and in the black forest the last row
node 42 of the left border column is not in the left border set. -/
theorem c2_preunion_bug :
    (Board.new 5).coord_to_num (Coord.mk 0 2) = 22 ∧
    (Board.new 5).coord_to_num (Coord.mk 1 2) = 23 ∧
    UF.find (Board.new 5).white_unions 22 = UF.find (Board.new 5).white_unions 23 ∧
    UF.find (Board.new 5).white_unions ((5 + 1) * (5 + 2) + 1) ≠
      UF.find (Board.new 5).white_unions ((5 + 1) * (5 + 2) + 2) ∧
    UF.find (Board.new 5).black_unions ((5 + 1) * (5 + 2)) ≠
      UF.find (Board.new 5).black_unions 0 := by
  decide

theorem UF.getD_lt (l : List Nat) (x : Nat) (h : x < l.length) : l.getD x x = l[x] := by
  unfold List.getD
  rw [List.get?_eq_getElem?, List.getElem?_eq_getElem h]
  rfl

theorem UF.getD_ge (l : List Nat) (x : Nat) (h : l.length ≤ x) : l.getD x x = x := by
  unfold List.getD
  rw [List.get?_eq_none.mpr h]
  rfl

theorem UF.new_wf (n : Nat) : UFwf (UF.new n) := by
  intro r hr
  unfold UF.new at hr ⊢
  rw [List.length_range]
  exact List.mem_range.mp hr

theorem UF.find_mem (uf : List Nat) (a : Nat) (ha : a < uf.length) : UF.find uf a ∈ uf := by
  unfold UF.find
  rw [UF.getD_lt uf a ha]
  exact List.getElem_mem ha

theorem UF.find_lt (uf : List Nat) (a : Nat) (h : UFwf uf) (ha : a < uf.length) :
    UF.find uf a < uf.length :=
  h _ (UF.find_mem uf a ha)

theorem UF.find_ge (uf : List Nat) (x : Nat) (h : uf.length ≤ x) : UF.find uf x = x := by
  unfold UF.find
  exact UF.getD_ge uf x h

theorem UF.union_wf (uf : List Nat) (a b : Nat) (h : UFwf uf) : UFwf (UF.union uf a b) := by
  unfold UF.union
  split_ifs with hab heq
  · exact h
  · intro r hr2
    rw [List.length_map]
    simp only [List.mem_map] at hr2
    obtain ⟨r0, hr0, hfr⟩ := hr2
    subst hfr
    split_ifs with he
    · exact UF.find_lt uf a h hab.1
    · exact h r0 hr0
  · exact h

theorem UF.find_map_lt (uf : List Nat) (f : Nat → Nat) (x : Nat) (hx : x < uf.length) :
    UF.find (uf.map f) x = f (UF.find uf x) := by
  unfold UF.find
  have hx2 : x < (uf.map f).length := by rw [List.length_map]; exact hx
  rw [UF.getD_lt _ _ hx2, UF.getD_lt _ _ hx, List.getElem_map]

theorem UF.find_eq_mono (uf : List Nat) (a b u v : Nat) (h : UFwf uf)
    (huv : UF.find uf u = UF.find uf v) :
    UF.find (UF.union uf a b) u = UF.find (UF.union uf a b) v := by
  unfold UF.union
  split_ifs with hab heq
  · exact huv
  · rcases Nat.lt_or_ge u uf.length with hu | hu
    · rcases Nat.lt_or_ge v uf.length with hv | hv
      · rw [UF.find_map_lt _ _ _ hu, UF.find_map_lt _ _ _ hv, huv]
      · exfalso
        have h1 : UF.find uf u < uf.length := UF.find_lt uf u h hu
        have h2 : UF.find uf v = v := UF.find_ge uf v hv
        rw [huv, h2] at h1
        omega
    · rcases Nat.lt_or_ge v uf.length with hv | hv
      · exfalso
        have h1 : UF.find uf v < uf.length := UF.find_lt uf v h hv
        have h2 : UF.find uf u = u := UF.find_ge uf u hu
        rw [← huv, h2] at h1
        omega
      · have h1 : UF.find uf u = u := UF.find_ge uf u hu
        have h2 : UF.find uf v = v := UF.find_ge uf v hv
        rw [h1, h2] at huv
        rw [huv]
  · exact huv

theorem UF.foldl_wf {α : Type} (step : List Nat → α → List Nat)
    (hstep : ∀ uf x, UFwf uf → UFwf (step uf x))
    (l : List α) (uf : List Nat) (h : UFwf uf) : UFwf (l.foldl step uf) := by
  induction l generalizing uf with
  | nil => exact h
  | cons a as ih => exact ih _ (hstep _ _ h)

theorem UF.foldl_find_eq {α : Type} (step : List Nat → α → List Nat)
    (hstepwf : ∀ uf x, UFwf uf → UFwf (step uf x))
    (hstepmono : ∀ uf x u v, UFwf uf → UF.find uf u = UF.find uf v →
      UF.find (step uf x) u = UF.find (step uf x) v)
    (l : List α) (uf : List Nat) (h : UFwf uf) (u v : Nat)
    (huv : UF.find uf u = UF.find uf v) :
    UF.find (l.foldl step uf) u = UF.find (l.foldl step uf) v := by
  induction l generalizing uf with
  | nil => exact huv
  | cons a as ih => exact ih _ (hstepwf _ _ h) (hstepmono _ _ _ _ h huv)

theorem Board.piece_empty_iff (b : Board) (p : Coord) :
    b.piece p = HexCell.Empty ↔ p ∉ b.black ∧ p ∉ b.white := by
  unfold Board.piece
  split_ifs with hb hw
  · constructor
    · intro hx; cases hx
    · rintro ⟨hnb, -⟩; exact absurd hb hnb
  · constructor
    · intro hx; cases hx
    · rintro ⟨-, hnw⟩; exact absurd hw hnw
  · exact iff_of_true rfl ⟨hb, hw⟩

theorem Board.set_game_status_fields (b : Board) :
    (b.set_game_status).size = b.size ∧
    (b.set_game_status).black_unions = b.black_unions ∧
    (b.set_game_status).white_unions = b.white_unions ∧
    (b.set_game_status).black = b.black ∧
    (b.set_game_status).white = b.white := by
  unfold Board.set_game_status
  split_ifs <;> exact ⟨rfl, rfl, rfl, rfl, rfl⟩

theorem Board.set_game_status_spec (b : Board) :
    ((b.set_game_status).status = GameStatus.BlackWin →
      UF.find b.black_unions (b.size + 3) =
        UF.find b.black_unions ((b.size + 2) * 2 - 1)) ∧
    ((b.set_game_status).status = GameStatus.WhiteWin →
      UF.find b.white_unions 1 =
        UF.find b.white_unions ((b.size + 2) * (b.size + 1) + 1)) := by
  unfold Board.set_game_status
  split_ifs with hb hw
  · exact ⟨(fun _ => hb), (fun hx => nomatch hx)⟩
  · exact ⟨(fun hx => nomatch hx), (fun _ => hw)⟩
  · exact ⟨(fun hx => nomatch hx), (fun hx => nomatch hx)⟩

theorem Board.set_game_status_ne_ongoing (b : Board)
    (h : UF.find b.black_unions (b.size + 3) =
        UF.find b.black_unions ((b.size + 2) * 2 - 1) ∨
      UF.find b.white_unions 1 =
        UF.find b.white_unions ((b.size + 2) * (b.size + 1) + 1)) :
    (b.set_game_status).status ≠ GameStatus.Ongoing := by
  unfold Board.set_game_status
  split_ifs with hb hw
  · exact fun hx => nomatch hx
  · exact fun hx => nomatch hx
  · rcases h with h | h
    · exact absurd h hb
    · exact absurd h hw

theorem Board.place_piece_reject (b : Board) (p : Coord) (col : Color)
    (h : (b.size ≤ p.x ∨ b.size ≤ p.y) ∨ b.piece p ≠ HexCell.Empty) :
    b.place_piece p col = (false, b) := by
  unfold Board.place_piece
  rcases h with h | h
  · rw [if_pos h]
  · by_cases h1 : b.size ≤ p.x ∨ b.size ≤ p.y
    · rw [if_pos h1]
    · rw [if_neg h1, if_pos h]

theorem Board.place_piece_accepted (b : Board) (p : Coord) (col : Color)
    (h : (b.place_piece p col).1 = true) :
    ¬(b.size ≤ p.x ∨ b.size ≤ p.y) ∧ b.piece p = HexCell.Empty := by
  by_cases h1 : b.size ≤ p.x ∨ b.size ≤ p.y
  · rw [Board.place_piece_reject b p col (Or.inl h1)] at h
    exact nomatch h
  · by_cases h2 : b.piece p = HexCell.Empty
    · exact ⟨h1, h2⟩
    · rw [Board.place_piece_reject b p col (Or.inr h2)] at h
      exact nomatch h

theorem Board.place_piece_black_spec (b : Board) (p : Coord)
    (h1 : ¬(b.size ≤ p.x ∨ b.size ≤ p.y)) (h2 : b.piece p = HexCell.Empty) :
    ∃ uf : List Nat,
      b.place_piece p Color.Black =
        (true, (Board.mk b.size uf b.white_unions (p :: b.black) b.white
          b.status).set_game_status) ∧
      (UFwf b.black_unions → UFwf uf) ∧
      (∀ u v, UFwf b.black_unions → UF.find b.black_unions u = UF.find b.black_unions v →
        UF.find uf u = UF.find uf v) := by
  have hpb : p ∉ b.black := ((Board.piece_empty_iff b p).mp h2).1
  unfold Board.place_piece
  rw [if_neg h1, if_neg (fun hne => hne h2)]
  simp only [if_neg hpb]
  refine ⟨_, rfl, ?_, ?_⟩
  · intro hwf
    refine UF.foldl_wf _ ?_ _ _ hwf
    intro uf x hw
    split_ifs with hcond
    · exact UF.union_wf _ _ _ hw
    · exact hw
  · intro u v hwf huv
    refine UF.foldl_find_eq _ ?_ ?_ _ _ hwf u v huv
    · intro uf x hw
      split_ifs with hcond
      · exact UF.union_wf _ _ _ hw
      · exact hw
    · intro uf x u2 v2 hw he
      split_ifs with hcond
      · exact UF.find_eq_mono _ _ _ _ _ hw he
      · exact he

theorem Board.place_piece_white_spec (b : Board) (p : Coord)
    (h1 : ¬(b.size ≤ p.x ∨ b.size ≤ p.y)) (h2 : b.piece p = HexCell.Empty) :
    ∃ uf : List Nat,
      b.place_piece p Color.White =
        (true, (Board.mk b.size b.black_unions uf b.black (p :: b.white)
          b.status).set_game_status) ∧
      (UFwf b.white_unions → UFwf uf) ∧
      (∀ u v, UFwf b.white_unions → UF.find b.white_unions u = UF.find b.white_unions v →
        UF.find uf u = UF.find uf v) := by
  have hpw : p ∉ b.white := ((Board.piece_empty_iff b p).mp h2).2
  unfold Board.place_piece
  rw [if_neg h1, if_neg (fun hne => hne h2)]
  simp only [if_neg hpw]
  refine ⟨_, rfl, ?_, ?_⟩
  · intro hwf
    refine UF.foldl_wf _ ?_ _ _ hwf
    intro uf x hw
    split_ifs with hcond
    · exact UF.union_wf _ _ _ hw
    · exact hw
  · intro u v hwf huv
    refine UF.foldl_find_eq _ ?_ ?_ _ _ hwf u v huv
    · intro uf x hw
      split_ifs with hcond
      · exact UF.union_wf _ _ _ hw
      · exact hw
    · intro uf x u2 v2 hw he
      split_ifs with hcond
      · exact UF.find_eq_mono _ _ _ _ _ hw he
      · exact he

/-- Claim C7: rejected placements return false and leave the whole board
unchanged, and a second identical placement after a successful one
returns false with the state identical to the state after the first. -/
theorem c7_rejection_idempotence :
    (∀ (b : Board) (p : Coord) (col : Color),
      ((b.size ≤ p.x ∨ b.size ≤ p.y) ∨ b.piece p ≠ HexCell.Empty) →
        b.place_piece p col = (false, b)) ∧
    (∀ (b : Board) (p : Coord) (col : Color),
      (b.place_piece p col).1 = true →
        (b.place_piece p col).2.place_piece p col = (false, (b.place_piece p col).2)) := by
  refine ⟨Board.place_piece_reject, ?_⟩
  intro b p col h
  obtain ⟨h1, h2⟩ := Board.place_piece_accepted b p col h
  apply Board.place_piece_reject
  right
  cases col with
  | Black =>
    obtain ⟨uf, he, -, -⟩ := Board.place_piece_black_spec b p h1 h2
    rw [he]
    have hfield := (Board.set_game_status_fields
      (Board.mk b.size uf b.white_unions (p :: b.black) b.white b.status)).2.2.2.1
    unfold Board.piece
    rw [hfield]
    rw [if_pos (List.mem_cons_self p b.black)]
    exact fun hx => nomatch hx
  | White =>
    obtain ⟨uf, he, -, -⟩ := Board.place_piece_white_spec b p h1 h2
    rw [he]
    have hfieldb := (Board.set_game_status_fields
      (Board.mk b.size b.black_unions uf b.black (p :: b.white) b.status)).2.2.2.1
    have hfieldw := (Board.set_game_status_fields
      (Board.mk b.size b.black_unions uf b.black (p :: b.white) b.status)).2.2.2.2
    unfold Board.piece
    rw [hfieldb, hfieldw]
    rw [if_neg ((Board.piece_empty_iff b p).mp h2).1]
    rw [if_pos (List.mem_cons_self p b.white)]
    exact fun hx => nomatch hx

/-- Witness for c7_rejection_idempotence: the out-of-bounds position f1
is rejected on the empty 2 by 2 board, and repeating the successful
placement of a Black stone at a1 is rejected without changing the state. -/
theorem c7_witness :
    Board.place_piece (Board.new 2) (Coord.mk 5 0) Color.Black = (false, Board.new 2) ∧
    ((Board.new 2).place_piece (Coord.mk 0 0) Color.Black).2.place_piece
        (Coord.mk 0 0) Color.Black =
      (false, ((Board.new 2).place_piece (Coord.mk 0 0) Color.Black).2) :=
  ⟨c7_rejection_idempotence.1 (Board.new 2) (Coord.mk 5 0) Color.Black
      (Or.inl (Or.inl (by decide))),
   c7_rejection_idempotence.2 (Board.new 2) (Coord.mk 0 0) Color.Black (by decide)⟩

/-- Claim C10: on every reachable board the two occupancy sets are
disjoint, every occupied position lies inside the board extent, and the
occupancy query returns Empty on every out-of-bounds position. -/
theorem c10_occupancy (b : Board) (h : Reachable b) :
    (∀ p : Coord, ¬(p ∈ b.black ∧ p ∈ b.white)) ∧
    (∀ p : Coord, p ∈ b.black ∨ p ∈ b.white → p.x < b.size ∧ p.y < b.size) ∧
    (∀ p : Coord, b.size ≤ p.x ∨ b.size ≤ p.y → b.piece p = HexCell.Empty) := by
  have main : (∀ p : Coord, ¬(p ∈ b.black ∧ p ∈ b.white)) ∧
      (∀ p : Coord, p ∈ b.black ∨ p ∈ b.white → p.x < b.size ∧ p.y < b.size) := by
    induction h with
    | base size =>
      constructor
      · intro p hp
        have : p ∈ ([] : List Coord) := hp.1
        cases this
      · intro p hp
        have : p ∈ ([] : List Coord) ∨ p ∈ ([] : List Coord) := hp
        rcases this with h | h <;> cases h
    | step b0 c col hr ih =>
      obtain ⟨ih1, ih2⟩ := ih
      by_cases g1 : b0.size ≤ c.x ∨ b0.size ≤ c.y
      · rw [Board.place_piece_reject b0 c col (Or.inl g1)]
        exact ⟨ih1, ih2⟩
      · by_cases g2 : b0.piece c = HexCell.Empty
        · obtain ⟨hnb, hnw⟩ := (Board.piece_empty_iff b0 c).mp g2
          have hcx : c.x < b0.size ∧ c.y < b0.size := by
            push_neg at g1
            omega
          cases col with
          | Black =>
            obtain ⟨uf, he, -, -⟩ := Board.place_piece_black_spec b0 c g1 g2
            rw [he]
            obtain ⟨hsz, -, -, hbl, hwh⟩ := Board.set_game_status_fields
              (Board.mk b0.size uf b0.white_unions (c :: b0.black) b0.white b0.status)
            constructor
            · intro p hp
              rw [hbl, hwh] at hp
              rcases List.mem_cons.mp hp.1 with hpc | hpb
              · subst hpc; exact hnw hp.2
              · exact ih1 p ⟨hpb, hp.2⟩
            · intro p hp
              rw [hbl, hwh] at hp
              rw [hsz]
              rcases hp with hp | hp
              · rcases List.mem_cons.mp hp with hpc | hpb
                · subst hpc; exact hcx
                · exact ih2 p (Or.inl hpb)
              · exact ih2 p (Or.inr hp)
          | White =>
            obtain ⟨uf, he, -, -⟩ := Board.place_piece_white_spec b0 c g1 g2
            rw [he]
            obtain ⟨hsz, -, -, hbl, hwh⟩ := Board.set_game_status_fields
              (Board.mk b0.size b0.black_unions uf b0.black (c :: b0.white) b0.status)
            constructor
            · intro p hp
              rw [hbl, hwh] at hp
              rcases List.mem_cons.mp hp.2 with hpc | hpw
              · subst hpc; exact hnb hp.1
              · exact ih1 p ⟨hp.1, hpw⟩
            · intro p hp
              rw [hbl, hwh] at hp
              rw [hsz]
              rcases hp with hp | hp
              · exact ih2 p (Or.inl hp)
              · rcases List.mem_cons.mp hp with hpc | hpw
                · subst hpc; exact hcx
                · exact ih2 p (Or.inr hpw)
        · rw [Board.place_piece_reject b0 c col (Or.inr g2)]
          exact ⟨ih1, ih2⟩
  refine ⟨main.1, main.2, ?_⟩
  intro p hp
  refine (Board.piece_empty_iff b p).mpr ⟨?_, ?_⟩
  · intro hmem
    have := main.2 p (Or.inl hmem)
    omega
  · intro hmem
    have := main.2 p (Or.inr hmem)
    omega

/-- Witness for c10_occupancy: out-of-bounds queries on a reachable board
return Empty. -/
theorem c10_witness :
    Board.piece ((Board.new 3).place_piece (Coord.mk 0 0) Color.Black).2
      (Coord.mk 7 7) = HexCell.Empty :=
  (c10_occupancy _ (Reachable.step (Board.new 3) (Coord.mk 0 0) Color.Black
    (Reachable.base 3))).2.2 (Coord.mk 7 7) (Or.inl (by decide))

theorem reachable_wf (b : Board) (h : Reachable b) : BoardWF b := by
  induction h with
  | base size =>
    refine ⟨?_, ?_, ?_, ?_⟩
    · show UFwf (Board.new size).black_unions
      simp only [Board.new]
      refine UF.foldl_wf _ ?_ _ _ (UF.new_wf _)
      intro uf y hw
      exact UF.union_wf _ _ _ (UF.union_wf _ _ _ hw)
    · show UFwf (Board.new size).white_unions
      simp only [Board.new]
      refine UF.foldl_wf _ ?_ _ _ (UF.new_wf _)
      intro uf y hw
      exact UF.union_wf _ _ _ (UF.union_wf _ _ _ hw)
    · intro hx
      exact nomatch hx
    · intro hx
      exact nomatch hx
  | step b0 c col hr ih =>
    obtain ⟨ihb, ihw, ihsb, ihsw⟩ := ih
    by_cases g1 : b0.size ≤ c.x ∨ b0.size ≤ c.y
    · rw [Board.place_piece_reject b0 c col (Or.inl g1)]
      exact ⟨ihb, ihw, ihsb, ihsw⟩
    · by_cases g2 : b0.piece c = HexCell.Empty
      · cases col with
        | Black =>
          obtain ⟨uf, he, hwf, hmono⟩ := Board.place_piece_black_spec b0 c g1 g2
          rw [he]
          obtain ⟨hspecb, hspecw⟩ := Board.set_game_status_spec
            (Board.mk b0.size uf b0.white_unions (c :: b0.black) b0.white b0.status)
          obtain ⟨hsz, hub, huw, -, -⟩ := Board.set_game_status_fields
            (Board.mk b0.size uf b0.white_unions (c :: b0.black) b0.white b0.status)
          refine ⟨?_, ?_, ?_, ?_⟩
          · rw [hub]; exact hwf ihb
          · rw [huw]; exact ihw
          · intro hx
            rw [hub, hsz]
            exact hspecb hx
          · intro hx
            rw [huw, hsz]
            exact hspecw hx
        | White =>
          obtain ⟨uf, he, hwf, hmono⟩ := Board.place_piece_white_spec b0 c g1 g2
          rw [he]
          obtain ⟨hspecb, hspecw⟩ := Board.set_game_status_spec
            (Board.mk b0.size b0.black_unions uf b0.black (c :: b0.white) b0.status)
          obtain ⟨hsz, hub, huw, -, -⟩ := Board.set_game_status_fields
            (Board.mk b0.size b0.black_unions uf b0.black (c :: b0.white) b0.status)
          refine ⟨?_, ?_, ?_, ?_⟩
          · rw [hub]; exact ihb
          · rw [huw]; exact hwf ihw
          · intro hx
            rw [hub, hsz]
            exact hspecb hx
          · intro hx
            rw [huw, hsz]
            exact hspecw hx
      · rw [Board.place_piece_reject b0 c col (Or.inr g2)]
        exact ⟨ihb, ihw, ihsb, ihsw⟩

/-- Claim C8: on a reachable board whose cached status is a win, no
further placement, accepted or rejected, can take the status back to
Ongoing. -/
theorem c8_no_revert (b : Board) (hR : Reachable b) (c : Coord) (col : Color)
    (hs : b.status ≠ GameStatus.Ongoing) :
    ((b.place_piece c col).2).status ≠ GameStatus.Ongoing := by
  obtain ⟨hwfb, hwfw, hsb, hsw⟩ := reachable_wf b hR
  by_cases g1 : b.size ≤ c.x ∨ b.size ≤ c.y
  · rw [Board.place_piece_reject b c col (Or.inl g1)]
    exact hs
  · by_cases g2 : b.piece c = HexCell.Empty
    · have hcase : b.status = GameStatus.BlackWin ∨ b.status = GameStatus.WhiteWin := by
        cases hstat : b.status with
        | BlackWin => exact Or.inl rfl
        | WhiteWin => exact Or.inr rfl
        | Ongoing => exact absurd hstat hs
      cases col with
      | Black =>
        obtain ⟨uf, he, hwf, hmono⟩ := Board.place_piece_black_spec b c g1 g2
        rw [he]
        apply Board.set_game_status_ne_ongoing
        rcases hcase with hB | hW
        · exact Or.inl (hmono _ _ hwfb (hsb hB))
        · exact Or.inr (hsw hW)
      | White =>
        obtain ⟨uf, he, hwf, hmono⟩ := Board.place_piece_white_spec b c g1 g2
        rw [he]
        apply Board.set_game_status_ne_ongoing
        rcases hcase with hB | hW
        · exact Or.inl (hsb hB)
        · exact Or.inr (hmono _ _ hwfw (hsw hW))
    · rw [Board.place_piece_reject b c col (Or.inr g2)]
      exact hs

/-- Witness for c8_no_revert: the 1 by 1 board after the winning Black
move at a1 keeps a non-Ongoing status through one further placement. -/
theorem c8_witness :
    ((((Board.new 1).place_piece (Coord.mk 0 0) Color.Black).2).place_piece
      (Coord.mk 0 0) Color.White).2.status ≠ GameStatus.Ongoing :=
  c8_no_revert (((Board.new 1).place_piece (Coord.mk 0 0) Color.Black).2)
    (Reachable.step (Board.new 1) (Coord.mk 0 0) Color.Black (Reachable.base 1))
    (Coord.mk 0 0) Color.White (by decide)
